import Mathlib

/-!
Verification of the causal-provenance tracer in `entcausal/queries/causality.go`.

The Go source defines plain data records (`CausalPath`, `CausalNode`,
`CausalEdge`, `EmergentPatternResult`, `AgentDecisionPath`), a breadth-first
backward traversal `TraceCausality`, thin query stubs
(`FindEmergentPatterns`, `GetAgentDecisionPath`, `QueryByPatternHash`,
`QueryByInferenceID`), and pure derived views on `CausalPath`
(`GetSpikeEvents`, `GetDecisions`, `CountByType`).

Abstractions used by this embedding:
* Go `time.Time` values written by the code are always `time.Now()`
  placeholders; they are modelled as the constant `0 : Nat`.
* Go `float64` fields (`Confidence`, `TotalLatencyMs`, `Significance`) are
  never computed with by the tracer; they are carried as `Rat` payloads.
* Go `map[string]interface{}` metadata is carried as `List (String × String)`;
  the traversal always leaves it empty (the Go zero value).
* The entity store is an external collaborator (spec section 6).  The source's
  `getParentNodes` is a placeholder that performs no store access and returns
  `(nil, nil)`; the store-backed lookup is modelled as a finite association
  list keyed by node id (ids are globally unique per the data-model
  invariants), the empty store giving exactly the source's placeholder
  behaviour.
* Go `(value, error)` returns are modelled as `Except String value`; the
  source never returns a non-nil error from any of these functions.
-/

/-- Node in a causal path (`CausalNode` in the source): id, type tag,
timestamp (abstracted), BFS depth, and metadata (abstracted). -/
structure CausalNode where
  id : String
  type : String
  timestamp : Nat
  depth : Nat
  metadata : List (String × String)
  deriving Repr, DecidableEq

/-- Edge in a causal path (`CausalEdge` in the source). -/
structure CausalEdge where
  sourceID : String
  sourceType : String
  targetID : String
  targetType : String
  edgeType : String
  confidence : Rat
  deriving Repr, DecidableEq

/-- A path through the causal graph (`CausalPath` in the source). -/
structure CausalPath where
  outputID : String
  nodes : List CausalNode
  edges : List CausalEdge
  depth : Nat
  totalLatencyMs : Rat
  tracedAt : Nat
  deriving Repr, DecidableEq

/-- A detected emergent pattern (`EmergentPatternResult` in the source). -/
structure EmergentPatternResult where
  patternHash : String
  occurrenceCount : Nat
  neuronIndices : List Nat
  populationID : String
  firstSeen : Nat
  lastSeen : Nat
  significance : Rat
  deriving Repr, DecidableEq

/-- The full path of an agent's decision (`AgentDecisionPath` in the source). -/
structure AgentDecisionPath where
  agentID : String
  actionID : String
  spikeEvents : List CausalNode
  decisions : List CausalNode
  workflows : List CausalNode
  outputs : List CausalNode
  totalDepth : Nat
  deriving Repr, DecidableEq

/-- Entry of the BFS frontier: the anonymous
`struct { id, nodeType string; depth int }` used for the queue in
`TraceCausality`. -/
structure QEntry where
  id : String
  nodeType : String
  depth : Nat
  deriving Repr, DecidableEq

/-- The mutable state of the `TraceCausality` loop: the `visited` set (kept in
insertion order), the FIFO `queue`, and the `path.Nodes`, `path.Edges`,
`path.Depth` accumulators. -/
structure BfsState where
  visited : List String
  queue : List QEntry
  nodes : List CausalNode
  edges : List CausalEdge
  depth : Nat
  deriving Repr, DecidableEq

/-- Modelled from the spec: one record of the store collaborator's
`GetParents` table (spec section 6) — the immediate causal parents of the node
with this id, together with the corresponding parent edges.  The source's
`getParentNodes` is a placeholder with no store; the empty list models it. -/
structure StoreEntry where
  id : String
  parents : List CausalNode
  edges : List CausalEdge
  deriving Repr, DecidableEq

/-- Modelled from the spec: the read-only entity store, a finite table of
parent adjacency (spec section 6, `GetParents`). -/
abbrev Store : Type := List StoreEntry

/-- Modelled from the spec: `GetParents(nodeId, …)` — returns the empty pair
(not an error) when the node has no causal parents (spec section 6).  Lookup
is keyed on id alone since node ids are globally unique (spec section 3). -/
def storeLookup (store : Store) (nodeID : String) : List CausalNode × List CausalEdge :=
  match store.find? (fun e => e.id == nodeID) with
  | some e => (e.parents, e.edges)
  | none => ([], [])

/-- `getParentNodes` from the source: fetch the immediate causal parents of a
node.  The source body is a placeholder returning `(nil, nil)`; the real
implementation (described in the source comments and spec section 6) queries
the store by id and type.  The type argument does not affect the lookup
because ids are globally unique. -/
def getParentNodes (store : Store) (nodeID : String) (nodeType : String) :
    List CausalNode × List CausalEdge :=
  let _ := nodeType
  storeLookup store nodeID

/-- One unvisited-node step of the `TraceCausality` loop body: mark `cur.id`
visited, append the node to `path.Nodes`, raise `path.Depth`, append all
parent edges (even those whose parent is already visited), and enqueue the
unvisited parents at `cur.depth + 1`. -/
def processNode (store : Store) (s : BfsState) (cur : QEntry) (rest : List QEntry) :
    BfsState :=
  { visited := s.visited ++ [cur.id]
    queue := rest ++ (((getParentNodes store cur.id cur.nodeType).1.filter
        (fun p => decide (¬ (p.id ∈ s.visited ∨ p.id = cur.id)))).map
        (fun p => { id := p.id, nodeType := p.type, depth := cur.depth + 1 }))
    nodes := s.nodes ++ [{ id := cur.id, type := cur.nodeType, timestamp := 0,
                           depth := cur.depth, metadata := [] }]
    edges := s.edges ++ (getParentNodes store cur.id cur.nodeType).2
    depth := Nat.max s.depth cur.depth }

/-- The `for len(queue) > 0 && path.Depth <= maxDepth` loop of
`TraceCausality`, with explicit fuel (the Go loop terminates because the
store is finite; `fuelFor` below always provides enough fuel). -/
def bfsLoop (store : Store) (maxDepth : Nat) : Nat → BfsState → BfsState
  | 0, s => s
  | fuel + 1, s =>
    match s.queue with
    | [] => s
    | cur :: rest =>
      if maxDepth < s.depth then s
      else if cur.id ∈ s.visited then
        bfsLoop store maxDepth fuel { s with queue := rest }
      else
        bfsLoop store maxDepth fuel (processNode store s cur rest)

/-- Fuel that always suffices for `bfsLoop`: every pop is matched by a push,
and at most `1 + Σ |parents|` entries are ever pushed (each store entry's
parents are enqueued at most once, when its node is first processed). -/
def fuelFor (store : Store) : Nat :=
  ((store.foldl (fun a e => a + e.parents.length) 0) + 1) + 1

/-- The `if maxDepth <= 0 { maxDepth = 100 }` normalization at the top of
`TraceCausality`. -/
def normalizeMaxDepth (maxDepth : Int) : Int :=
  if maxDepth ≤ 0 then 100 else maxDepth

/-- The `if minOccurrences <= 0 { minOccurrences = 5 }` normalization at the
top of `FindEmergentPatterns`. -/
def normalizeMinOccurrences (minOccurrences : Int) : Int :=
  if minOccurrences ≤ 0 then 5 else minOccurrences

/-- The `if limit <= 0 { limit = 100 }` normalization at the top of
`QueryByPatternHash`. -/
def normalizeLimit (limit : Int) : Int :=
  if limit ≤ 0 then 100 else limit

/-- The final loop state of `TraceCausality store outputID maxDepth`: the BFS
starts from the synthetic root entry `{outputID, "external_output", 0}` with
an empty visited set and runs to completion. -/
def traceState (store : Store) (outputID : String) (maxDepth : Int) : BfsState :=
  bfsLoop store (normalizeMaxDepth maxDepth).toNat (fuelFor store)
    { visited := [], queue := [{ id := outputID, nodeType := "external_output", depth := 0 }],
      nodes := [], edges := [], depth := 0 }

/-- The `CausalPath` assembled by `TraceCausality` (`OutputID` and `TracedAt`
are set up front; `Nodes`, `Edges` and `Depth` are filled by the loop). -/
def tracePath (store : Store) (outputID : String) (maxDepth : Int) : CausalPath :=
  { outputID := outputID
    nodes := (traceState store outputID maxDepth).nodes
    edges := (traceState store outputID maxDepth).edges
    depth := (traceState store outputID maxDepth).depth
    totalLatencyMs := 0
    tracedAt := 0 }

/-- `TraceCausality` from the source.  The Go function returns
`(*CausalPath, error)` and every return site is `return path, nil`: it never
returns an error, whether or not the output id exists in the store. -/
def TraceCausality (store : Store) (outputID : String) (maxDepth : Int) :
    Except String CausalPath :=
  Except.ok (tracePath store outputID maxDepth)

/-- `FindEmergentPatterns` from the source: after normalizing
`minOccurrences`, the body builds `results := make([]EmergentPatternResult, 0)`
and returns it with a nil error — it never consults the store, despite the
documented aggregation query in its own comments. -/
def FindEmergentPatterns (startTime endTime : Nat) (minOccurrences : Int) :
    Except String (List EmergentPatternResult) :=
  let _ := startTime
  let _ := endTime
  let _ := normalizeMinOccurrences minOccurrences
  Except.ok []

/-- `GetAgentDecisionPath` from the source: returns a path carrying the two
input ids and four empty (`make(…, 0)`) node lists, with a nil error; the
body performs no store access. -/
def GetAgentDecisionPath (agentID actionID : String) : Except String AgentDecisionPath :=
  Except.ok { agentID := agentID, actionID := actionID, spikeEvents := [],
              decisions := [], workflows := [], outputs := [], totalDepth := 0 }

/-- `QueryByPatternHash` from the source: after normalizing `limit`, returns
`nil, nil` (modelled as the empty list with a nil error). -/
def QueryByPatternHash (patternHash : String) (limit : Int) :
    Except String (List CausalNode) :=
  let _ := patternHash
  let _ := normalizeLimit limit
  Except.ok []

/-- `buildInferencePath` from the source: a placeholder returning an empty
path tagged with the inference id. -/
def buildInferencePath (inferenceID : String) : Except String CausalPath :=
  Except.ok { outputID := inferenceID, nodes := [], edges := [], depth := 0,
              totalLatencyMs := 0, tracedAt := 0 }

/-- `QueryByInferenceID` from the source: delegates to `buildInferencePath`. -/
def QueryByInferenceID (inferenceID : String) : Except String CausalPath :=
  buildInferencePath inferenceID

/-- `TraceCausality` together with the store the call leaves behind.  The
source method only ever reads through `getParentNodes`; it performs no write
to the client, so the store is returned unchanged. -/
def TraceCausalityS (store : Store) (outputID : String) (maxDepth : Int) :
    Except String CausalPath × Store :=
  (TraceCausality store outputID maxDepth, store)

/-- `GetAgentDecisionPath` together with the store the call leaves behind
(the source body performs no store operation at all). -/
def GetAgentDecisionPathS (store : Store) (agentID actionID : String) :
    Except String AgentDecisionPath × Store :=
  (GetAgentDecisionPath agentID actionID, store)

/-- `FindEmergentPatterns` together with the store the call leaves behind. -/
def FindEmergentPatternsS (store : Store) (startTime endTime : Nat)
    (minOccurrences : Int) : Except String (List EmergentPatternResult) × Store :=
  (FindEmergentPatterns startTime endTime minOccurrences, store)

/-- `QueryByPatternHash` together with the store the call leaves behind. -/
def QueryByPatternHashS (store : Store) (patternHash : String) (limit : Int) :
    Except String (List CausalNode) × Store :=
  (QueryByPatternHash patternHash limit, store)

/-- `QueryByInferenceID` together with the store the call leaves behind. -/
def QueryByInferenceIDS (store : Store) (inferenceID : String) :
    Except String CausalPath × Store :=
  (QueryByInferenceID inferenceID, store)

/-- `GetSpikeEvents` from the source: collect the nodes of type
`"spike_event"`, in list order, into a fresh list. -/
def CausalPath.GetSpikeEvents (p : CausalPath) : List CausalNode :=
  p.nodes.foldl (fun events node =>
    if node.type = "spike_event" then events ++ [node] else events) []

/-- `GetDecisions` from the source: collect the nodes of type
`"routing_decision"`, in list order, into a fresh list. -/
def CausalPath.GetDecisions (p : CausalPath) : List CausalNode :=
  p.nodes.foldl (fun decisions node =>
    if node.type = "routing_decision" then decisions ++ [node] else decisions) []

/-- `CountByType` from the source: a counter map over node types, built by
incrementing `counts[node.Type]` for every node (a missing key counts as 0,
as for a Go map). -/
def CausalPath.CountByType (p : CausalPath) : String → Nat :=
  p.nodes.foldl (fun counts node =>
    fun t => if t = node.type then counts t + 1 else counts t) (fun _ => 0)

/-- Reachability in the store's parent graph: `Reach store x y n` holds when
`y` can be reached from `x` in exactly `n` parent-fetch hops (the edges the
`TraceCausality` BFS discovers and follows). -/
inductive Reach (store : Store) : String → String → Nat → Prop
  | refl (x : String) : Reach store x x 0
  | step {x : String} {p : CausalNode} {y : String} {n : Nat} :
      p ∈ (storeLookup store x).1 → Reach store p.id y n → Reach store x y (n + 1)

/-- Unfolding lemma for one iteration of the `TraceCausality` loop. -/
theorem bfsLoop_succ (store : Store) (maxDepth : Nat) (fuel : Nat) (s : BfsState) :
    bfsLoop store maxDepth (fuel + 1) s =
      match s.queue with
      | [] => s
      | cur :: rest =>
        if maxDepth < s.depth then s
        else if cur.id ∈ s.visited then
          bfsLoop store maxDepth fuel { s with queue := rest }
        else
          bfsLoop store maxDepth fuel (processNode store s cur rest) := rfl

/-- A list is pairwise related when every pair of its members is related. -/
theorem listPairwise_of_forall_mem {α : Type} {R : α → α → Prop} {l : List α}
    (h : ∀ a ∈ l, ∀ b ∈ l, R a b) : l.Pairwise R := by
  induction l with
  | nil => exact List.Pairwise.nil
  | cons x xs ih =>
    refine List.Pairwise.cons (fun b hb => h x (by simp) b (by simp [hb])) ?_
    exact ih fun a ha b hb => h a (by simp [ha]) b (by simp [hb])

/-- Reachability extends by one hop at the far end. -/
theorem Reach.snoc {store : Store} {x y : String} {n : Nat}
    (h : Reach store x y n) {p : CausalNode} (hp : p ∈ (storeLookup store y).1) :
    Reach store x p.id (n + 1) := by
  induction h with
  | refl => exact Reach.step hp (Reach.refl _)
  | step hq _ ih => exact Reach.step hq (ih hp)

/-- Invariant of the `TraceCausality` loop state, for a fixed store, root id
and (normalized) depth ceiling `M`.  It packages everything the claims need:
the node list mirrors the visited set (dedup), recorded depths are exact BFS
distances, the queue is sorted by depth and depth-bounded, every reachable
unvisited node is covered by a queue entry, and processed nodes have all
their parents scheduled and all their edges recorded. -/
structure BfsInv (store : Store) (root : String) (M : Nat) (s : BfsState) : Prop where
  ids_eq : s.nodes.map (fun n => n.id) = s.visited
  nodup : s.visited.Nodup
  nodes_sound : ∀ n ∈ s.nodes, Reach store root n.id n.depth
  nodes_min : ∀ n ∈ s.nodes, ∀ k, Reach store root n.id k → n.depth ≤ k
  queue_sound : ∀ e ∈ s.queue, Reach store root e.id e.depth
  queue_sorted : s.queue.Pairwise (fun a b => a.depth ≤ b.depth)
  queue_bound : ∀ f, s.queue.head? = some f → ∀ e ∈ s.queue, e.depth ≤ f.depth + 1
  queue_depth_bound : ∀ e ∈ s.queue, e.depth ≤ s.depth + 1
  reach_queue : ∀ y k, Reach store root y k → y ∉ s.visited →
      ∃ e ∈ s.queue, ∃ m, Reach store e.id y m ∧ e.depth + m ≤ k
  parents_closed : ∀ n ∈ s.nodes, ∀ p ∈ (storeLookup store n.id).1,
      p.id ∈ s.visited ∨ ∃ e ∈ s.queue, e.id = p.id ∧ e.depth ≤ n.depth + 1
  edges_closed : ∀ n ∈ s.nodes, ∀ ed ∈ (storeLookup store n.id).2, ed ∈ s.edges
  depth_eq : s.depth = s.nodes.foldl (fun d n => Nat.max d n.depth) 0
  nodes_bound : ∀ n ∈ s.nodes, n.depth ≤ M + 1
  nodes_bound_le : s.depth ≤ M → ∀ n ∈ s.nodes, n.depth ≤ M
  over_count : (s.nodes.filter (fun n => decide (M < n.depth))).length ≤ 1

/-- The invariant holds at the initial loop state. -/
theorem inv_init (store : Store) (outputID : String) (M : Nat) :
    BfsInv store outputID M
      { visited := [], queue := [{ id := outputID, nodeType := "external_output", depth := 0 }],
        nodes := [], edges := [], depth := 0 } := by
  refine ⟨rfl, List.nodup_nil, ?_, ?_, ?_, ?_, ?_, ?_, ?_, ?_, ?_, rfl, ?_, ?_, ?_⟩
  · intro n hn; simp at hn
  · intro n hn; simp at hn
  · intro e he
    simp only [List.mem_singleton] at he
    subst he
    exact Reach.refl outputID
  · simp
  · intro f hf e he
    simp only [List.head?_cons, Option.some.injEq] at hf
    simp only [List.mem_singleton] at he
    subst hf; subst he
    simp
  · intro e he
    simp only [List.mem_singleton] at he
    subst he
    simp
  · intro y k hr hy
    refine ⟨{ id := outputID, nodeType := "external_output", depth := 0 }, by simp, k, hr, by simp⟩
  · intro n hn; simp at hn
  · intro n hn; simp at hn
  · intro n hn; simp at hn
  · intro h n hn; simp at hn
  · simp

/-- Heart of the BFS minimality argument: any unvisited node `y` reachable
from a visited node `w` is covered by some queue entry — following parent
edges from that entry reaches `y` within the combined depth budget. -/
theorem reach_to_queue (store : Store) (root : String)
    (V : List String) (N : List CausalNode) (Q : List QEntry)
    (hIds : N.map (fun n => n.id) = V)
    (hMin : ∀ n ∈ N, ∀ k, Reach store root n.id k → n.depth ≤ k)
    (hPar : ∀ n ∈ N, ∀ p ∈ (storeLookup store n.id).1,
        p.id ∈ V ∨ ∃ e ∈ Q, e.id = p.id ∧ e.depth ≤ n.depth + 1)
    {w y : String} {m : Nat} (hreach : Reach store w y m) :
    w ∈ V → y ∉ V → ∀ k, Reach store root w k →
      ∃ e ∈ Q, ∃ m2, Reach store e.id y m2 ∧ e.depth + m2 ≤ k + m := by
  induction hreach with
  | refl x => exact fun hw hy _ _ => absurd hw hy
  | step hp hr ih =>
    intro hw hy k hk
    rw [← hIds] at hw
    obtain ⟨nw, hnw, hnwid⟩ := List.mem_map.mp hw
    have hdw : nw.depth ≤ k := hMin nw hnw k (by rw [hnwid]; exact hk)
    rcases hPar nw hnw _ (by rw [hnwid]; exact hp) with hpin | ⟨e, heQ, heid, hedep⟩
    · obtain ⟨e, heQ, m2, hr2, hle2⟩ := ih hpin hy (k + 1) (hk.snoc hp)
      exact ⟨e, heQ, m2, hr2, by omega⟩
    · exact ⟨e, heQ, _, by rw [heid]; exact hr, by omega⟩

/-- The loop invariant is preserved when a visited entry is popped and
skipped. -/
theorem inv_skip {store : Store} {root : String} {M : Nat} {s : BfsState}
    {cur : QEntry} {rest : List QEntry}
    (hq : s.queue = cur :: rest) (hv : cur.id ∈ s.visited)
    (hInv : BfsInv store root M s) :
    BfsInv store root M { s with queue := rest } := by
  have hsort : (cur :: rest).Pairwise (fun a b => a.depth ≤ b.depth) := hq ▸ hInv.queue_sorted
  have hrest_le : ∀ e ∈ rest, cur.depth ≤ e.depth := (List.pairwise_cons.mp hsort).1
  have hbound : ∀ e ∈ rest, e.depth ≤ cur.depth + 1 := by
    intro e he
    exact hInv.queue_bound cur (by rw [hq]; rfl) e (by rw [hq]; exact List.mem_cons_of_mem _ he)
  have hpar : ∀ n ∈ s.nodes, ∀ p ∈ (storeLookup store n.id).1,
      p.id ∈ s.visited ∨ ∃ e ∈ rest, e.id = p.id ∧ e.depth ≤ n.depth + 1 := by
    intro n hn p hp
    rcases hInv.parents_closed n hn p hp with h | ⟨e, heQ, heid, hedep⟩
    · exact Or.inl h
    · rw [hq] at heQ
      rcases List.mem_cons.mp heQ with rfl | hmem
      · exact Or.inl (heid ▸ hv)
      · exact Or.inr ⟨e, hmem, heid, hedep⟩
  refine ⟨hInv.ids_eq, hInv.nodup, hInv.nodes_sound, hInv.nodes_min, ?_, hsort.of_cons, ?_, ?_,
    ?_, hpar, hInv.edges_closed, hInv.depth_eq, hInv.nodes_bound, hInv.nodes_bound_le,
    hInv.over_count⟩
  · intro e he; exact hInv.queue_sound e (by rw [hq]; exact List.mem_cons_of_mem _ he)
  · intro f hf e he
    have hfmem : f ∈ rest := by
      cases rest with
      | nil => simp at hf
      | cons r rs =>
        simp only [List.head?_cons, Option.some.injEq] at hf
        rw [← hf]; exact List.mem_cons_self r rs
    calc e.depth ≤ cur.depth + 1 := hbound e he
    _ ≤ f.depth + 1 := Nat.succ_le_succ (hrest_le f hfmem)
  · intro e he; exact hInv.queue_depth_bound e (by rw [hq]; exact List.mem_cons_of_mem _ he)
  · intro y k hr hy
    rcases hInv.reach_queue y k hr hy with ⟨e, heQ, m, hrm, hle⟩
    rw [hq] at heQ
    rcases List.mem_cons.mp heQ with heq | hmem
    · subst heq
      have hcur : Reach store root e.id e.depth :=
        hInv.queue_sound e (by rw [hq]; exact List.mem_cons_self _ _)
      rcases reach_to_queue store root s.visited s.nodes rest hInv.ids_eq hInv.nodes_min hpar
        hrm hv hy e.depth hcur with ⟨e2, he2, m2, hr2, hle2⟩
      exact ⟨e2, he2, m2, hr2, by omega⟩
    · exact ⟨e, hmem, m, hrm, hle⟩


/-- The loop invariant is preserved when an unvisited entry is popped and
processed (node recorded, depth raised, edges appended, parents enqueued). -/
theorem inv_process {store : Store} {root : String} {M : Nat} {s : BfsState}
    {cur : QEntry} {rest : List QEntry}
    (hq : s.queue = cur :: rest) (hv : cur.id ∉ s.visited) (hd : s.depth ≤ M)
    (hInv : BfsInv store root M s) :
    BfsInv store root M (processNode store s cur rest) := by
  have hpn : processNode store s cur rest =
      { visited := s.visited ++ [cur.id]
        queue := rest ++ (((storeLookup store cur.id).1.filter
            (fun p => decide (¬ (p.id ∈ s.visited ∨ p.id = cur.id)))).map
            (fun p => (⟨p.id, p.type, cur.depth + 1⟩ : QEntry)))
        nodes := s.nodes ++ [(⟨cur.id, cur.nodeType, 0, cur.depth, []⟩ : CausalNode)]
        edges := s.edges ++ (storeLookup store cur.id).2
        depth := Nat.max s.depth cur.depth } := rfl
  rw [hpn]
  have hcurQ : cur ∈ s.queue := by rw [hq]; exact List.mem_cons_self _ _
  have hcurR : Reach store root cur.id cur.depth := hInv.queue_sound cur hcurQ
  have hcurd : cur.depth ≤ s.depth + 1 := hInv.queue_depth_bound cur hcurQ
  have hsort : (cur :: rest).Pairwise (fun a b => a.depth ≤ b.depth) := hq ▸ hInv.queue_sorted
  have hrest_le : ∀ e ∈ rest, cur.depth ≤ e.depth := (List.pairwise_cons.mp hsort).1
  have hbound : ∀ e ∈ rest, e.depth ≤ cur.depth + 1 := fun e he =>
    hInv.queue_bound cur (by rw [hq]; rfl) e (by rw [hq]; exact List.mem_cons_of_mem _ he)
  have hmin_new : ∀ k, Reach store root cur.id k → cur.depth ≤ k := by
    intro k hk
    rcases hInv.reach_queue cur.id k hk hv with ⟨e, heQ, m, _, hle⟩
    have hce : cur.depth ≤ e.depth := by
      rw [hq] at heQ
      rcases List.mem_cons.mp heQ with heq | hm
      · rw [heq]
      · exact hrest_le e hm
    omega
  have hnews_mem : ∀ e ∈ (((storeLookup store cur.id).1.filter
      (fun p => decide (¬ (p.id ∈ s.visited ∨ p.id = cur.id)))).map
      (fun p => (⟨p.id, p.type, cur.depth + 1⟩ : QEntry))),
      ∃ p ∈ (storeLookup store cur.id).1, ¬ (p.id ∈ s.visited ∨ p.id = cur.id) ∧
        e = ⟨p.id, p.type, cur.depth + 1⟩ := by
    intro e he
    obtain ⟨p, hp, rfl⟩ := List.mem_map.mp he
    obtain ⟨hp1, hp2⟩ := List.mem_filter.mp hp
    exact ⟨p, hp1, by simpa using hp2, rfl⟩
  have hIds2 : (s.nodes ++ [(⟨cur.id, cur.nodeType, 0, cur.depth, []⟩ : CausalNode)]).map
      (fun n => n.id) = s.visited ++ [cur.id] := by
    simp [hInv.ids_eq]
  have hmin2 : ∀ n ∈ (s.nodes ++ [(⟨cur.id, cur.nodeType, 0, cur.depth, []⟩ : CausalNode)]),
      ∀ k, Reach store root n.id k → n.depth ≤ k := by
    intro n hn
    rcases List.mem_append.mp hn with hn | hn
    · exact hInv.nodes_min n hn
    · rw [List.mem_singleton] at hn
      subst hn
      exact hmin_new
  have hpar2 : ∀ n ∈ (s.nodes ++ [(⟨cur.id, cur.nodeType, 0, cur.depth, []⟩ : CausalNode)]),
      ∀ p ∈ (storeLookup store n.id).1,
      p.id ∈ s.visited ++ [cur.id] ∨ ∃ e ∈ (rest ++ (((storeLookup store cur.id).1.filter
        (fun p => decide (¬ (p.id ∈ s.visited ∨ p.id = cur.id)))).map
        (fun p => (⟨p.id, p.type, cur.depth + 1⟩ : QEntry)))),
        e.id = p.id ∧ e.depth ≤ n.depth + 1 := by
    intro n hn p hp
    rcases List.mem_append.mp hn with hn | hn
    · rcases hInv.parents_closed n hn p hp with h | ⟨e, heQ, heid, hedep⟩
      · exact Or.inl (List.mem_append_left _ h)
      · rw [hq] at heQ
        rcases List.mem_cons.mp heQ with heq | hm
        · refine Or.inl (List.mem_append_right _ ?_)
          rw [← heid, heq]
          exact List.mem_singleton.mpr rfl
        · exact Or.inr ⟨e, List.mem_append_left _ hm, heid, hedep⟩
    · rw [List.mem_singleton] at hn
      subst hn
      by_cases hc : p.id ∈ s.visited ∨ p.id = cur.id
      · rcases hc with hc | hc
        · exact Or.inl (List.mem_append_left _ hc)
        · exact Or.inl (List.mem_append_right _ (by rw [hc]; exact List.mem_singleton.mpr rfl))
      · refine Or.inr ⟨⟨p.id, p.type, cur.depth + 1⟩, List.mem_append_right _ ?_, rfl, by simp⟩
        exact List.mem_map.mpr ⟨p, List.mem_filter.mpr ⟨hp, by simpa using hc⟩, rfl⟩
  refine ⟨hIds2, ?_, ?_, hmin2, ?_, ?_, ?_, ?_, ?_, hpar2, ?_, ?_, ?_, ?_, ?_⟩
  · rw [List.nodup_append]
    refine ⟨hInv.nodup, List.nodup_singleton _, ?_⟩
    intro a ha hb
    rw [List.mem_singleton] at hb
    rw [hb] at ha
    exact hv ha
  · intro n hn
    rcases List.mem_append.mp hn with hn | hn
    · exact hInv.nodes_sound n hn
    · rw [List.mem_singleton] at hn
      subst hn
      exact hcurR
  · intro e he
    rcases List.mem_append.mp he with he | he
    · exact hInv.queue_sound e (by rw [hq]; exact List.mem_cons_of_mem _ he)
    · obtain ⟨p, hp, _, rfl⟩ := hnews_mem e he
      exact hcurR.snoc hp
  · rw [List.pairwise_append]
    refine ⟨hsort.of_cons, ?_, ?_⟩
    · refine listPairwise_of_forall_mem ?_
      intro a ha b hb
      obtain ⟨_, _, _, rfl⟩ := hnews_mem a ha
      obtain ⟨_, _, _, rfl⟩ := hnews_mem b hb
      exact Nat.le_refl _
    · intro a ha b hb
      obtain ⟨_, _, _, rfl⟩ := hnews_mem b hb
      exact hbound a ha
  · intro f hf e he
    cases hrest : rest with
    | nil =>
      subst hrest
      rw [List.nil_append] at hf he
      obtain ⟨_, _, _, rfl⟩ := hnews_mem e he
      obtain ⟨_, _, _, rfl⟩ := hnews_mem f (List.mem_of_mem_head? hf)
      exact Nat.le_succ_of_le (Nat.le_refl _)
    | cons r rs =>
      subst hrest
      simp only [List.cons_append, List.head?_cons, Option.some.injEq] at hf
      rw [← hf]
      rcases List.mem_append.mp he with he | he
      · calc e.depth ≤ cur.depth + 1 := hbound e he
        _ ≤ r.depth + 1 := Nat.succ_le_succ (hrest_le r (List.mem_cons_self _ _))
      · obtain ⟨_, _, _, rfl⟩ := hnews_mem e he
        exact Nat.succ_le_succ (hrest_le r (List.mem_cons_self _ _))
  · intro e he
    have hmx1 : s.depth ≤ Nat.max s.depth cur.depth := Nat.le_max_left _ _
    have hmx2 : cur.depth ≤ Nat.max s.depth cur.depth := Nat.le_max_right _ _
    rcases List.mem_append.mp he with he | he
    · have h1 := hInv.queue_depth_bound e (by rw [hq]; exact List.mem_cons_of_mem _ he)
      show e.depth ≤ Nat.max s.depth cur.depth + 1
      omega
    · obtain ⟨_, _, _, rfl⟩ := hnews_mem e he
      show cur.depth + 1 ≤ Nat.max s.depth cur.depth + 1
      omega
  · intro y k hr hy
    have hyV : y ∉ s.visited := fun h => hy (List.mem_append_left _ h)
    rcases hInv.reach_queue y k hr hyV with ⟨e, heQ, m, hrm, hle⟩
    rw [hq] at heQ
    rcases List.mem_cons.mp heQ with heq | hm
    · rw [heq] at hrm hle
      have hcV : cur.id ∈ s.visited ++ [cur.id] :=
        List.mem_append_right _ (List.mem_singleton.mpr rfl)
      rcases reach_to_queue store root (s.visited ++ [cur.id])
        (s.nodes ++ [(⟨cur.id, cur.nodeType, 0, cur.depth, []⟩ : CausalNode)]) _
        hIds2 hmin2 hpar2 hrm hcV hy cur.depth hcurR with ⟨e2, he2, m2, hr2, hle2⟩
      exact ⟨e2, he2, m2, hr2, by omega⟩
    · exact ⟨e, List.mem_append_left _ hm, m, hrm, hle⟩
  · intro n hn ed hed
    rcases List.mem_append.mp hn with hn | hn
    · exact List.mem_append_left _ (hInv.edges_closed n hn ed hed)
    · rw [List.mem_singleton] at hn
      subst hn
      exact List.mem_append_right _ hed
  · rw [List.foldl_append]
    simp [hInv.depth_eq]
  · intro n hn
    rcases List.mem_append.mp hn with hn | hn
    · exact hInv.nodes_bound n hn
    · rw [List.mem_singleton] at hn
      subst hn
      show cur.depth ≤ M + 1
      omega
  · intro hD n hn
    have hD2 : Nat.max s.depth cur.depth ≤ M := hD
    have h1 : s.depth ≤ Nat.max s.depth cur.depth := Nat.le_max_left _ _
    have h2 : cur.depth ≤ Nat.max s.depth cur.depth := Nat.le_max_right _ _
    rcases List.mem_append.mp hn with hn | hn
    · exact hInv.nodes_bound_le (by omega) n hn
    · rw [List.mem_singleton] at hn
      subst hn
      show cur.depth ≤ M
      omega
  · rw [List.filter_append]
    have hnil : s.nodes.filter (fun n => decide (M < n.depth)) = [] := by
      rw [List.filter_eq_nil_iff]
      intro n hn
      have := hInv.nodes_bound_le hd n hn
      simp
      omega
    rw [hnil, List.nil_append]
    cases h : decide (M < cur.depth) <;> simp [List.filter, h]

/-- The loop invariant is preserved by any number of loop iterations. -/
theorem inv_loop (store : Store) (root : String) (M : Nat) :
    ∀ (fuel : Nat) (s : BfsState), BfsInv store root M s →
      BfsInv store root M (bfsLoop store M fuel s) := by
  intro fuel
  induction fuel with
  | zero => exact fun s h => h
  | succ fuel ih =>
    intro s h
    rw [bfsLoop_succ]
    cases hq : s.queue with
    | nil => exact h
    | cons cur rest =>
      show BfsInv store root M
        (if M < s.depth then s
         else if cur.id ∈ s.visited then bfsLoop store M fuel { s with queue := rest }
         else bfsLoop store M fuel (processNode store s cur rest))
      by_cases hd : M < s.depth
      · rw [if_pos hd]; exact h
      · rw [if_neg hd]
        by_cases hvis : cur.id ∈ s.visited
        · rw [if_pos hvis]
          exact ih _ (inv_skip hq hvis h)
        · rw [if_neg hvis]
          exact ih _ (inv_process hq hvis (Nat.le_of_not_lt hd) h)

/-- The loop invariant holds at the final state of `TraceCausality`. -/
theorem inv_traceState (store : Store) (outputID : String) (maxDepth : Int) :
    BfsInv store outputID ((normalizeMaxDepth maxDepth).toNat)
      (traceState store outputID maxDepth) :=
  inv_loop store outputID _ (fuelFor store) _ (inv_init store outputID _)

/-- Shorthand for a parent record as stored by the collaborator (depth and
timestamp fields of stored parents are irrelevant to the traversal). -/
def mkNode (i t : String) : CausalNode :=
  { id := i, type := t, timestamp := 0, depth := 0, metadata := [] }

/-- Shorthand for a causal edge from child `c` back to parent `p`. -/
def mkEdge (p c : String) : CausalEdge :=
  { sourceID := p, sourceType := "t", targetID := c, targetType := "t",
    edgeType := "causes", confidence := 1 }

/-- Fan-in example graph: `r ← {c1, c2} ← p` (two children `c1`, `c2` of the
root share the single parent `p`). -/
def fanInStore : Store := [
  { id := "r", parents := [mkNode "c1" "workflow_execution", mkNode "c2" "workflow_execution"],
    edges := [mkEdge "c1" "r", mkEdge "c2" "r"] },
  { id := "c1", parents := [mkNode "p" "agent_action"], edges := [mkEdge "p" "c1"] },
  { id := "c2", parents := [mkNode "p" "agent_action"], edges := [mkEdge "p" "c2"] },
  { id := "p", parents := [], edges := [] } ]

/-- Deep fan-in example graph: `r ← m ← {c1, c2} ← p` (the shared parent `p`
sits at BFS depth 3). -/
def fanInDeepStore : Store := [
  { id := "r", parents := [mkNode "m" "workflow_execution"], edges := [mkEdge "m" "r"] },
  { id := "m", parents := [mkNode "c1" "agent_action", mkNode "c2" "agent_action"],
    edges := [mkEdge "c1" "m", mkEdge "c2" "m"] },
  { id := "c1", parents := [mkNode "p" "routing_decision"], edges := [mkEdge "p" "c1"] },
  { id := "c2", parents := [mkNode "p" "routing_decision"], edges := [mkEdge "p" "c2"] },
  { id := "p", parents := [], edges := [] } ]

/-- Chain example graph: `r ← a ← b`. -/
def chainStore : Store := [
  { id := "r", parents := [mkNode "a" "workflow_execution"], edges := [mkEdge "a" "r"] },
  { id := "a", parents := [mkNode "b" "agent_action"], edges := [mkEdge "b" "a"] },
  { id := "b", parents := [], edges := [] } ]

/-- Example path with two spike events, one routing decision and one agent
action, used to check the derived views. -/
def examplePath : CausalPath :=
  { outputID := "out"
    nodes := [mkNode "s1" "spike_event", mkNode "d1" "routing_decision",
              mkNode "s2" "spike_event", mkNode "a1" "agent_action"]
    edges := [], depth := 0, totalLatencyMs := 0, tracedAt := 0 }

/-- Normalizing a non-positive `maxDepth` makes `TraceCausality` behave
exactly as with the documented default of 100. -/
theorem trace_norm (store : Store) (outputID : String) {maxDepth : Int}
    (h : maxDepth ≤ 0) :
    TraceCausality store outputID maxDepth = TraceCausality store outputID 100 := by
  have hnorm : normalizeMaxDepth maxDepth = normalizeMaxDepth 100 := by
    simp [normalizeMaxDepth, h]
  unfold TraceCausality tracePath traceState
  rw [hnorm]

/-- The append-if-matching fold used by the derived views equals a filter. -/
theorem foldl_append_filter (P : CausalNode → Prop) [DecidablePred P]
    (l : List CausalNode) (acc : List CausalNode) :
    l.foldl (fun es n => if P n then es ++ [n] else es) acc
      = acc ++ l.filter (fun n => decide (P n)) := by
  induction l generalizing acc with
  | nil => simp
  | cons x xs ih =>
    rw [List.foldl_cons, List.filter_cons]
    by_cases h : P x
    · simp [h, ih]
    · simp [h, ih]

/-- The counter fold used by `CountByType` counts exactly the nodes of the
queried type. -/
theorem countByType_foldl (l : List CausalNode) (f : String → Nat) (t : String) :
    (l.foldl (fun counts node => fun u => if u = node.type then counts u + 1 else counts u) f) t
      = f t + (l.filter (fun n => decide (n.type = t))).length := by
  induction l generalizing f with
  | nil => simp
  | cons x xs ih =>
    rw [List.foldl_cons, ih, List.filter_cons]
    by_cases h : x.type = t
    · have h2 : t = x.type := h.symm
      simp only [h2, if_pos rfl, decide_eq_true_eq, if_true, List.length_cons]
      omega
    · have h2 : ¬ (t = x.type) := fun hh => h hh.symm
      simp only [if_neg h2, decide_eq_true_eq, h, if_false]

/-- Claim C1: the claim demands a NotFound error for an output id absent from
the store.  The code never returns an error: evaluated at the failing input
(empty store, unknown id `"missing-output"`), `TraceCausality` returns a nil
error and a successful root-only path instead. -/
theorem C1_missing_id_returns_ok_root_path :
    TraceCausality [] "missing-output" 5 =
      Except.ok { outputID := "missing-output",
                  nodes := [(⟨"missing-output", "external_output", 0, 0, []⟩ : CausalNode)],
                  edges := [], depth := 0, totalLatencyMs := 0, tracedAt := 0 } := by
  rfl

/-- Claim C2 (counterexample): in the fan-in graph `r ← m ← {c1, c2} ← p`
(children `c1` and `c2` share the parent `p`), the call with `maxDepth = 1`
stops before processing `c2` and `p`: the shared parent appears zero times in
`Nodes` (not exactly once) and the incoming edge from `c2` to `p` is missing
from `Edges`. -/
theorem C2_fanin_counterexample :
    (mkNode "p" "routing_decision" ∈ (storeLookup fanInDeepStore "c1").1
      ∧ mkNode "p" "routing_decision" ∈ (storeLookup fanInDeepStore "c2").1)
    ∧ ((tracePath fanInDeepStore "r" 1).nodes.map (fun n => n.id)).count "p" = 0
    ∧ mkEdge "p" "c2" ∉ (tracePath fanInDeepStore "r" 1).edges := by
  decide

/-- Claim C2 (amended): in every returned path each node id appears at most
once in `Nodes`; if both child nodes of a shared parent appear in `Nodes`
then all their fetched parent edges — including both incoming edges of the
shared parent, and edges to already-visited parents — appear in `Edges`; and
if additionally the traversal drains its frontier (is not cut short by the
depth ceiling), the shared parent's id appears exactly once in `Nodes`. -/
theorem C2_fanin_dedup (store : Store) (outputID : String) (maxDepth : Int)
    (c1 c2 pid : String)
    (h1 : c1 ∈ (tracePath store outputID maxDepth).nodes.map (fun n => n.id))
    (h2 : c2 ∈ (tracePath store outputID maxDepth).nodes.map (fun n => n.id))
    (hp1 : pid ∈ (storeLookup store c1).1.map (fun p => p.id))
    (_hp2 : pid ∈ (storeLookup store c2).1.map (fun p => p.id)) :
    (∀ x : String, ((tracePath store outputID maxDepth).nodes.map (fun n => n.id)).count x ≤ 1)
    ∧ (∀ ed ∈ (storeLookup store c1).2, ed ∈ (tracePath store outputID maxDepth).edges)
    ∧ (∀ ed ∈ (storeLookup store c2).2, ed ∈ (tracePath store outputID maxDepth).edges)
    ∧ ((traceState store outputID maxDepth).queue = [] →
        ((tracePath store outputID maxDepth).nodes.map (fun n => n.id)).count pid = 1) := by
  have hInv := inv_traceState store outputID maxDepth
  obtain ⟨n1, hn1, hn1id⟩ := List.mem_map.mp h1
  obtain ⟨n2, hn2, hn2id⟩ := List.mem_map.mp h2
  obtain ⟨p1, hp1m, hp1id⟩ := List.mem_map.mp hp1
  refine ⟨?_, ?_, ?_, ?_⟩
  · intro x
    show ((traceState store outputID maxDepth).nodes.map (fun n => n.id)).count x ≤ 1
    rw [hInv.ids_eq]
    exact List.nodup_iff_count_le_one.mp hInv.nodup x
  · intro ed hed
    exact hInv.edges_closed n1 hn1 ed (by rw [hn1id]; exact hed)
  · intro ed hed
    exact hInv.edges_closed n2 hn2 ed (by rw [hn2id]; exact hed)
  · intro hdrain
    have hmem : pid ∈ (traceState store outputID maxDepth).visited := by
      rcases hInv.parents_closed n1 hn1 p1 (by rw [hn1id]; exact hp1m) with h | ⟨e, heQ, _, _⟩
      · rw [← hp1id]; exact h
      · rw [hdrain] at heQ
        simp at heQ
    show ((traceState store outputID maxDepth).nodes.map (fun n => n.id)).count pid = 1
    rw [hInv.ids_eq]
    exact List.count_eq_one_of_mem hInv.nodup hmem

/-- Witness for C2 (amended): on the fan-in graph `r ← {c1, c2} ← p` traced
with `maxDepth = 5` the frontier drains, both children are recorded, and the
amended conclusion evaluates as stated. -/
theorem C2_fanin_dedup_witness :
    (∀ x : String, ((tracePath fanInStore "r" 5).nodes.map (fun n => n.id)).count x ≤ 1)
    ∧ (∀ ed ∈ (storeLookup fanInStore "c1").2, ed ∈ (tracePath fanInStore "r" 5).edges)
    ∧ (∀ ed ∈ (storeLookup fanInStore "c2").2, ed ∈ (tracePath fanInStore "r" 5).edges)
    ∧ ((tracePath fanInStore "r" 5).nodes.map (fun n => n.id)).count "p" = 1 := by
  have h := C2_fanin_dedup fanInStore "r" 5 "c1" "c2" "p" (by decide) (by decide)
    (by decide) (by decide)
  exact ⟨h.1, h.2.1, h.2.2.1, h.2.2.2 (by decide)⟩

/-- Claim C3 (counterexample): on the chain `r ← a ← b` traced with
`maxDepth = 1`, the node `b` is recorded at depth 2 because the running
maximum depth is checked before dequeuing, so the claim that no node of depth
greater than `k` appears is false for `k = 1`. -/
theorem C3_ceiling_counterexample :
    ¬ (∀ n ∈ (tracePath chainStore "r" 1).nodes, n.depth ≤ 1) := by
  decide

/-- Claim C3 (amended): for every call (normalized ceiling `k`), no node of
depth greater than `k + 1` appears in `Nodes`, and at most one node of depth
exactly `k + 1` appears (the first node recorded past the ceiling, after
which the loop exits); for `maxDepth ≤ 0` the returned value is identical to
the one returned for `maxDepth = 100`. -/
theorem C3_depth_ceiling (store : Store) (outputID : String) (maxDepth : Int) :
    (∀ n ∈ (tracePath store outputID maxDepth).nodes,
        n.depth ≤ (normalizeMaxDepth maxDepth).toNat + 1)
    ∧ ((tracePath store outputID maxDepth).nodes.filter
        (fun n => decide ((normalizeMaxDepth maxDepth).toNat < n.depth))).length ≤ 1
    ∧ (maxDepth ≤ 0 →
        TraceCausality store outputID maxDepth = TraceCausality store outputID 100) := by
  have hInv := inv_traceState store outputID maxDepth
  exact ⟨hInv.nodes_bound, hInv.over_count, fun h => trace_norm store outputID h⟩

/-- Witness for C3 (amended): evaluated on the chain `r ← a ← b` with
`maxDepth = -1`, the normalized ceiling is 100, all depths are within bound,
and the result equals the `maxDepth = 100` call. -/
theorem C3_depth_ceiling_witness :
    (∀ n ∈ (tracePath chainStore "r" (-1)).nodes,
        n.depth ≤ (normalizeMaxDepth (-1)).toNat + 1)
    ∧ TraceCausality chainStore "r" (-1) = TraceCausality chainStore "r" 100 := by
  have h := C3_depth_ceiling chainStore "r" (-1)
  exact ⟨h.1, h.2.2 (by norm_num)⟩

/-- Claim C4: every recorded node's depth field is exactly its breadth-first
distance in hops from the root along the parent edges (a parent chain of that
length exists, and no shorter one does), and the path's `Depth` field is the
running maximum of the recorded node depths. -/
theorem C4_depth_is_bfs_distance (store : Store) (outputID : String) (maxDepth : Int) :
    (∀ n ∈ (tracePath store outputID maxDepth).nodes,
        Reach store outputID n.id n.depth
        ∧ (∀ k, Reach store outputID n.id k → n.depth ≤ k))
    ∧ (tracePath store outputID maxDepth).depth
        = (tracePath store outputID maxDepth).nodes.foldl (fun d n => Nat.max d n.depth) 0 := by
  have hInv := inv_traceState store outputID maxDepth
  exact ⟨fun n hn => ⟨hInv.nodes_sound n hn, hInv.nodes_min n hn⟩, hInv.depth_eq⟩

/-- Witness for C4: on the fan-in graph the shared parent `p` is recorded at
depth 2, its exact BFS distance from the root, and the path depth equals the
maximum recorded depth. -/
theorem C4_depth_is_bfs_distance_witness :
    Reach fanInStore "r" "p" 2
    ∧ (tracePath fanInStore "r" 5).depth
        = (tracePath fanInStore "r" 5).nodes.foldl (fun d n => Nat.max d n.depth) 0 := by
  have h := C4_depth_is_bfs_distance fanInStore "r" 5
  exact ⟨(h.1 (⟨"p", "agent_action", 0, 2, []⟩ : CausalNode) (by decide)).1, h.2⟩

/-- Claim C5: non-positive `maxDepth`, `minOccurrences` and `limit` are
normalized to 100, 5 and 100 respectively; the result equals the one for the
documented default and no error is returned because of the non-positive
argument. -/
theorem C5_nonpositive_args_normalized (store : Store) (outputID patternHash : String)
    (startTime endTime : Nat) (maxDepth minOccurrences limit : Int)
    (hmd : maxDepth ≤ 0) (hmo : minOccurrences ≤ 0) (hlim : limit ≤ 0) :
    normalizeMaxDepth maxDepth = 100
    ∧ TraceCausality store outputID maxDepth = TraceCausality store outputID 100
    ∧ (∃ p, TraceCausality store outputID maxDepth = Except.ok p)
    ∧ normalizeMinOccurrences minOccurrences = 5
    ∧ FindEmergentPatterns startTime endTime minOccurrences
        = FindEmergentPatterns startTime endTime 5
    ∧ (∃ r, FindEmergentPatterns startTime endTime minOccurrences = Except.ok r)
    ∧ normalizeLimit limit = 100
    ∧ QueryByPatternHash patternHash limit = QueryByPatternHash patternHash 100
    ∧ (∃ ns, QueryByPatternHash patternHash limit = Except.ok ns) := by
  refine ⟨by simp [normalizeMaxDepth, hmd], trace_norm store outputID hmd, ⟨_, rfl⟩,
    by simp [normalizeMinOccurrences, hmo], rfl, ⟨_, rfl⟩,
    by simp [normalizeLimit, hlim], rfl, ⟨_, rfl⟩⟩

/-- Witness for C5: the normalization at the concrete non-positive arguments
`maxDepth = minOccurrences = limit = -3`. -/
theorem C5_nonpositive_args_normalized_witness :
    normalizeMaxDepth (-3) = 100
    ∧ TraceCausality chainStore "out" (-3) = TraceCausality chainStore "out" 100
    ∧ (∃ p, TraceCausality chainStore "out" (-3) = Except.ok p)
    ∧ normalizeMinOccurrences (-3) = 5
    ∧ FindEmergentPatterns 0 10 (-3) = FindEmergentPatterns 0 10 5
    ∧ (∃ r, FindEmergentPatterns 0 10 (-3) = Except.ok r)
    ∧ normalizeLimit (-3) = 100
    ∧ QueryByPatternHash "h" (-3) = QueryByPatternHash "h" 100
    ∧ (∃ ns, QueryByPatternHash "h" (-3) = Except.ok ns) :=
  C5_nonpositive_args_normalized chainStore "out" "h" 0 10 (-3) (-3) (-3)
    (by norm_num) (by norm_num) (by norm_num)

/-- Claim C6: the claim (and the function's own documented aggregation query)
requires the qualifying fingerprint B (7 occurrences, `minOccurrences = 5`)
to be returned; the implemented body ignores the spike events entirely and
returns an empty result list for every window and threshold, so no
fingerprint is ever returned. -/
theorem C6_find_patterns_returns_empty (startTime endTime : Nat) (minOccurrences : Int) :
    FindEmergentPatterns startTime endTime minOccurrences = Except.ok [] := rfl

/-- Claim C7: tracing an output whose node has no causal parents yields a
path holding exactly the root node (type `external_output`, depth 0) and an
empty edge list, for every depth ceiling. -/
theorem C7_root_only_path (store : Store) (outputID : String) (maxDepth : Int)
    (h : storeLookup store outputID = ([], [])) :
    tracePath store outputID maxDepth =
      { outputID := outputID,
        nodes := [(⟨outputID, "external_output", 0, 0, []⟩ : CausalNode)],
        edges := [], depth := 0, totalLatencyMs := 0, tracedAt := 0 } := by
  have hfuel : fuelFor store = ((store.foldl (fun a e => a + e.parents.length) 0) + 1) + 1 := rfl
  unfold tracePath traceState
  rw [hfuel]
  simp [bfsLoop, processNode, getParentNodes, h, Nat.not_lt_zero]

/-- Witness for C7: the store holding the single parentless node `x`. -/
theorem C7_root_only_path_witness :
    tracePath [{ id := "x", parents := [], edges := [] }] "x" 7 =
      { outputID := "x",
        nodes := [(⟨"x", "external_output", 0, 0, []⟩ : CausalNode)],
        edges := [], depth := 0, totalLatencyMs := 0, tracedAt := 0 } :=
  C7_root_only_path [{ id := "x", parents := [], edges := [] }] "x" 7 (by decide)

/-- Claim C8: `GetSpikeEvents` and `GetDecisions` are pure projections of the
node list (the spike-event and routing-decision nodes, in list order),
`CountByType` counts the nodes of each type, and on a path with 2 spike
events, 1 routing decision and 1 agent action the results are 2, 1 and the
counts 2/1/1; none of these functions takes the store as an input. -/
theorem C8_type_projections :
    (∀ p : CausalPath,
        p.GetSpikeEvents = p.nodes.filter (fun n => decide (n.type = "spike_event")))
    ∧ (∀ p : CausalPath,
        p.GetDecisions = p.nodes.filter (fun n => decide (n.type = "routing_decision")))
    ∧ (∀ (p : CausalPath) (t : String),
        p.CountByType t = (p.nodes.filter (fun n => decide (n.type = t))).length)
    ∧ (examplePath.GetSpikeEvents.length = 2
       ∧ examplePath.GetDecisions.length = 1
       ∧ examplePath.CountByType "spike_event" = 2
       ∧ examplePath.CountByType "routing_decision" = 1
       ∧ examplePath.CountByType "agent_action" = 1) := by
  refine ⟨?_, ?_, ?_, by decide⟩
  · intro p
    simpa using foldl_append_filter (fun n => n.type = "spike_event") p.nodes []
  · intro p
    simpa using foldl_append_filter (fun n => n.type = "routing_decision") p.nodes []
  · intro p t
    simpa using countByType_foldl p.nodes (fun _ => 0) t

/-- Claim C9: none of the five tracer operations changes the store — each
call returns the store it was given, unchanged (the source methods perform
reads only, through `getParentNodes`). -/
theorem C9_operations_read_only (store : Store)
    (outputID agentID actionID patternHash inferenceID : String)
    (maxDepth minOccurrences limit : Int) (startTime endTime : Nat) :
    (TraceCausalityS store outputID maxDepth).2 = store
    ∧ (GetAgentDecisionPathS store agentID actionID).2 = store
    ∧ (FindEmergentPatternsS store startTime endTime minOccurrences).2 = store
    ∧ (QueryByPatternHashS store patternHash limit).2 = store
    ∧ (QueryByInferenceIDS store inferenceID).2 = store :=
  ⟨rfl, rfl, rfl, rfl, rfl⟩

/-- Claim C10: `GetAgentDecisionPath` returns a nil error and a path carrying
the two input ids, four empty node lists and total depth 0, without any store
access (the function does not even take the store as an input). -/
theorem C10_agent_decision_path_empty (agentID actionID : String) :
    GetAgentDecisionPath agentID actionID =
      Except.ok { agentID := agentID, actionID := actionID, spikeEvents := [],
                  decisions := [], workflows := [], outputs := [], totalDepth := 0 } := rfl
